import Mathlib

/-!
Verification of the evaluation-trace subsystem of pyPESTO
(`pypesto/objective/history.py`): history backends, the value extractor,
counters, and the best-value tracking container `OptimizerHistory`.

Numeric values are modelled as rationals.  The `NaN` / "missing" sentinel of
the Python code is modelled as `Option.none`: a quantity that was never set,
or set to `np.NaN`, is `none`; a genuine recorded value `v` is `some v`.
-/

namespace PyPesto

/-- Evaluation mode: `MODE_FUN` (function values) or `MODE_RES` (residuals). -/
inductive Mode where
  | fn : Mode
  | res : Mode
deriving DecidableEq, Repr

/-- The `HistoryOptions` configuration object of `history.py` (a dict with
attribute access; here an explicit record).  `storage_file = none` models the
Python value `None`. -/
structure HistoryOptions where
  trace_record : Bool := false
  trace_record_grad : Bool := true
  trace_record_hess : Bool := true
  trace_record_res : Bool := true
  trace_record_sres : Bool := true
  trace_record_chi2 : Bool := true
  trace_record_schi2 : Bool := true
  trace_save_iter : Nat := 10
  storage_file : Option String := none
deriving DecidableEq, Repr

/-- The raw result mapping passed to `update` / `extract_values`
(`ResultType = Dict[str, Union[float, np.ndarray]]`).  A key that is absent
from the Python dict is `none` here. -/
structure ResultMap where
  fval : Option ℚ := none
  grad : Option (List ℚ) := none
  hess : Option (List (List ℚ)) := none
  res : Option (List ℚ) := none
  sres : Option (List (List ℚ)) := none
  chi2 : Option ℚ := none
  schi2 : Option (List ℚ) := none
deriving DecidableEq, Repr

/-- The canonical record returned by `extract_values`: every recognized
quantity present, with `none` standing for the `np.NaN` missing marker. -/
structure ExtractedValues where
  fval : Option ℚ := none
  grad : Option (List ℚ) := none
  hess : Option (List (List ℚ)) := none
  res : Option (List ℚ) := none
  sres : Option (List (List ℚ)) := none
  chi2 : Option ℚ := none
  schi2 : Option (List ℚ) := none
deriving DecidableEq, Repr

/-- Dot product of two vectors, `np.dot` on equal-length 1-d arrays. -/
def listDot (a b : List ℚ) : ℚ :=
  (List.zipWith (· * ·) a b).sum

/-- Transpose of a rectangular matrix given as a list of rows. -/
def matT : List (List ℚ) → List (List ℚ)
  | [] => []
  | [row] => row.map (fun a => [a])
  | row :: rest => List.zipWith List.cons row (matT rest)

/-- Vector-matrix product `np.dot(r, S)`: component `j` is `Σ_i r_i * S_i_j`,
i.e. the dot product of `r` with the `j`-th column of `S`. -/
def vecMat (r : List ℚ) (S : List (List ℚ)) : List ℚ :=
  (matT S).map (fun col => listDot r col)

/-- Modelled from the spec: `pypesto.objective.util.res_to_chi2` (imported by
`history.py`; the `util` module is not among the sources).  The spec defines
chi-square as the sum of squared residuals; `None` input gives `None`. -/
def res_to_chi2 (res : Option (List ℚ)) : Option ℚ :=
  res.map (fun r => listDot r r)

/-- Modelled from the spec: `pypesto.objective.util.sres_to_schi2` (the `util`
module is not among the sources).  The spec defines the chi-square sensitivity
as `2 * (Jacobian^T * residual vector)`; `None` on either input gives `None`. -/
def sres_to_schi2 (res : Option (List ℚ)) (sres : Option (List (List ℚ))) :
    Option (List ℚ) :=
  match res, sres with
  | some r, some S => some ((vecMat r S).map (fun q => 2 * q))
  | _, _ => none

/-- Modelled from the spec: `pypesto.objective.util.sres_to_fim` (the `util`
module is not among the sources).  The spec defines the Fisher-information
Hessian approximation as `Jacobian^T * Jacobian`; `None` input gives `None`. -/
def sres_to_fim (sres : Option (List (List ℚ))) : Option (List (List ℚ)) :=
  sres.map (fun S => (matT S).map (fun ci => (matT S).map (fun cj => listDot ci cj)))

/-- The per-quantity copy step of `extract_values`: a raw value is copied only
if the corresponding recording flag is enabled and the key is present
(`options.get(f'trace_record_{var}', True) and var in result`). -/
def copyIf {α : Type} (flag : Bool) (v : Option α) : Option α :=
  if flag then v else none

/-- `extract_values(mode, result, options)` of `history.py`.  First copies each
raw value gated by its recording flag (`fval` has no flag, so its `dict.get`
default `True` applies); in residual mode then fills quantities that are still
absent with the derived chi-square, chi-square sensitivity, Fisher-information
Hessian, and (only when the derived chi-square sensitivity is available) the
gradient `0.5 * schi2`; everything still absent is the missing marker. -/
def extract_values (mode : Mode) (result : ResultMap) (options : HistoryOptions) :
    ExtractedValues :=
  let ret0 : ExtractedValues :=
    { fval := result.fval
      grad := copyIf options.trace_record_grad result.grad
      hess := copyIf options.trace_record_hess result.hess
      res := copyIf options.trace_record_res result.res
      sres := copyIf options.trace_record_sres result.sres
      chi2 := copyIf options.trace_record_chi2 result.chi2
      schi2 := copyIf options.trace_record_schi2 result.schi2 }
  match mode with
  | Mode.fn => ret0
  | Mode.res =>
    let chi2 := res_to_chi2 result.res
    let schi2 := sres_to_schi2 result.res result.sres
    let fim := sres_to_fim result.sres
    { ret0 with
      chi2 := ret0.chi2 <|> chi2
      schi2 := ret0.schi2 <|> schi2
      hess := ret0.hess <|> fim
      grad := ret0.grad <|> schi2.map (fun v => v.map (fun q => (1 / 2 : ℚ) * q)) }

/-- The five running evaluation counters of a `History`. -/
structure Counters where
  n_fval : Nat := 0
  n_grad : Nat := 0
  n_hess : Nat := 0
  n_res : Nat := 0
  n_sres : Nat := 0
deriving DecidableEq, Repr

/-- `History._update_counts(sensi_orders, mode)`: in function mode order 0/1/2
bumps `n_fval`/`n_grad`/`n_hess`, in residual mode order 0/1 bumps
`n_res`/`n_sres`.  `Hdf5History._update_counts` applies the identical rules to
the durable attributes. -/
def update_counts (c : Counters) (sensi_orders : List Nat) (mode : Mode) : Counters :=
  match mode with
  | Mode.fn =>
    { c with
      n_fval := c.n_fval + (if 0 ∈ sensi_orders then 1 else 0)
      n_grad := c.n_grad + (if 1 ∈ sensi_orders then 1 else 0)
      n_hess := c.n_hess + (if 2 ∈ sensi_orders then 1 else 0) }
  | Mode.res =>
    { c with
      n_res := c.n_res + (if 0 ∈ sensi_orders then 1 else 0)
      n_sres := c.n_sres + (if 1 ∈ sensi_orders then 1 else 0) }

/-- The state of an `OptimizerHistory` summary: initial point and best point.
`fval_min = none` models the initial `np.inf`; all other `none`s model `None`
(never set).  `np.NaN` never occurs in this rational model, so "non-missing"
coincides with `Option.isSome`. -/
structure OptimizerHistoryState where
  x0 : List ℚ
  fval0 : Option ℚ := none
  fval_min : Option ℚ := none
  chi2_min : Option ℚ := none
  x_min : Option (List ℚ) := none
  grad_min : Option (List ℚ) := none
  hess_min : Option (List (List ℚ)) := none
  res_min : Option (List ℚ) := none
  sres_min : Option (List (List ℚ)) := none
deriving DecidableEq, Repr

/-- A freshly constructed `OptimizerHistory` (the `__init__` without
`generate_from_history`): `fval_min = np.inf`, everything else unset. -/
def freshOptimizerHistory (x0 : List ℚ) : OptimizerHistoryState :=
  { x0 := x0 }

/-- `fval < self.fval_min` with `fval_min` possibly `np.inf` (`none`). -/
def ltFvalMin (v : ℚ) (m : Option ℚ) : Bool :=
  match m with
  | none => true
  | some w => decide (v < w)

/-- First section of `OptimizerHistory._update_vals`: if `x` matches the
initial point (`np.allclose(x, self.x0)`), record this call's function value
as `fval0` when it is still unset, and re-assign `x0 := x`. -/
def update_vals_initial (s : OptimizerHistoryState) (x : List ℚ) (result : ResultMap) :
    OptimizerHistoryState :=
  if x = s.x0 then { s with fval0 := s.fval0 <|> result.fval, x0 := x } else s

/-- Second section of `OptimizerHistory._update_vals`: if this call's `fval`
is present and strictly below `fval_min`, replace the whole best-point tuple
with this call's values (including possibly-missing ones). -/
def update_vals_best (s : OptimizerHistoryState) (x : List ℚ) (result : ResultMap) :
    OptimizerHistoryState :=
  match result.fval with
  | some v =>
    if ltFvalMin v s.fval_min then
      { s with
        fval_min := some v
        x_min := some x
        grad_min := result.grad
        hess_min := result.hess
        res_min := result.res
        sres_min := result.sres }
    else s
  | none => s

/-- Third section of `OptimizerHistory._update_vals`: if `x` equals the
current best `x` (`np.all(self.x_min == x)`), back-fill every still-unset
sensitivity field of the best point from this call's result. -/
def update_vals_backfill (s : OptimizerHistoryState) (x : List ℚ) (result : ResultMap) :
    OptimizerHistoryState :=
  if s.x_min = some x then
    { s with
      grad_min := s.grad_min <|> result.grad
      hess_min := s.hess_min <|> result.hess
      res_min := s.res_min <|> result.res
      sres_min := s.sres_min <|> result.sres }
  else s

/-- `OptimizerHistory._update_vals(x, result)`: updates the initial point when
`x` matches `x0`, replaces the whole best-point tuple when the call's `fval`
improves on `fval_min`, and finally back-fills still-unset best-point
sensitivity fields when `x` equals the (possibly just-updated) best `x`. -/
def update_vals (s : OptimizerHistoryState) (x : List ℚ) (result : ResultMap) :
    OptimizerHistoryState :=
  update_vals_backfill (update_vals_best (update_vals_initial s x result) x result) x result

/-- Fold `OptimizerHistory.update` (its `_update_vals` part) over a call
sequence given as `(x, result)` pairs. -/
def run_update_vals (s : OptimizerHistoryState) (updates : List (List ℚ × ResultMap)) :
    OptimizerHistoryState :=
  updates.foldl (fun s u => update_vals s u.1 u.2) s

/-- One step of the running minimum: `min` with an `np.inf`-valued accumulator. -/
def ominStep (m : Option ℚ) (v : ℚ) : Option ℚ :=
  match m with
  | none => some v
  | some w => some (min w v)

/-- Order on `fval_min` values, with `none = np.inf` as the top element. -/
def fvalMinLe (a b : Option ℚ) : Prop :=
  match a, b with
  | _, none => True
  | none, some _ => False
  | some u, some w => u ≤ w

theorem update_vals_initial_fields (s : OptimizerHistoryState) (x : List ℚ)
    (r : ResultMap) :
    (update_vals_initial s x r).fval_min = s.fval_min ∧
    (update_vals_initial s x r).x_min = s.x_min ∧
    (update_vals_initial s x r).grad_min = s.grad_min ∧
    (update_vals_initial s x r).hess_min = s.hess_min ∧
    (update_vals_initial s x r).res_min = s.res_min ∧
    (update_vals_initial s x r).sres_min = s.sres_min := by
  unfold update_vals_initial
  split <;> simp

theorem update_vals_backfill_fval_min (s : OptimizerHistoryState) (x : List ℚ)
    (r : ResultMap) :
    (update_vals_backfill s x r).fval_min = s.fval_min := by
  unfold update_vals_backfill
  split <;> rfl

theorem update_vals_best_fval_min (s : OptimizerHistoryState) (x : List ℚ)
    (r : ResultMap) :
    (update_vals_best s x r).fval_min =
      match r.fval with
      | none => s.fval_min
      | some v => ominStep s.fval_min v := by
  unfold update_vals_best
  cases hf : r.fval with
  | none => rfl
  | some v =>
    cases hm : s.fval_min with
    | none => simp [ltFvalMin, hm, ominStep]
    | some w =>
      rcases lt_or_le v w with hvw | hwv
      · simp [ltFvalMin, hm, hvw, ominStep, min_eq_right (le_of_lt hvw)]
      · simp [ltFvalMin, hm, not_lt.mpr hwv, ominStep, min_eq_left hwv]

theorem update_vals_fval_min (s : OptimizerHistoryState) (x : List ℚ) (r : ResultMap) :
    (update_vals s x r).fval_min =
      match r.fval with
      | none => s.fval_min
      | some v => ominStep s.fval_min v := by
  unfold update_vals
  rw [update_vals_backfill_fval_min, update_vals_best_fval_min,
    (update_vals_initial_fields s x r).1]

theorem run_update_vals_fval_min (updates : List (List ℚ × ResultMap))
    (s : OptimizerHistoryState) :
    (run_update_vals s updates).fval_min =
      (updates.filterMap (fun u => u.2.fval)).foldl ominStep s.fval_min := by
  induction updates generalizing s with
  | nil => rfl
  | cons u t ih =>
    show (run_update_vals (update_vals s u.1 u.2) t).fval_min = _
    rw [ih, update_vals_fval_min]
    cases hf : u.2.fval <;> simp [hf, List.filterMap_cons]

theorem foldl_ominStep_spec (l : List ℚ) (m0 : Option ℚ) :
    (l.foldl ominStep m0 = none ↔ (m0 = none ∧ l = [])) ∧
    (∀ v, l.foldl ominStep m0 = some v →
      (v ∈ l ∨ m0 = some v) ∧ (∀ w ∈ l, v ≤ w) ∧ (∀ w, m0 = some w → v ≤ w)) := by
  induction l generalizing m0 with
  | nil =>
    constructor
    · simp
    · intro v hv
      simp_all
  | cons a t ih =>
    constructor
    · simp only [List.foldl_cons]
      rw [(ih (ominStep m0 a)).1]
      cases m0 <;> simp [ominStep]
    · intro v hv
      simp only [List.foldl_cons] at hv
      cases m0 with
      | none =>
        simp only [ominStep] at hv
        obtain ⟨hmem, hlb, hm0⟩ := (ih (some a)).2 v hv
        have hva : v ≤ a := hm0 a rfl
        refine ⟨?_, ?_, ?_⟩
        · rcases hmem with h | h
          · exact Or.inl (List.mem_cons_of_mem _ h)
          · exact Or.inl (Option.some_inj.mp h ▸ List.mem_cons_self a t)
        · intro w hw
          rcases List.mem_cons.mp hw with rfl | hw2
          · exact hva
          · exact hlb _ hw2
        · intro w hww
          exact absurd hww (by simp)
      | some u =>
        simp only [ominStep] at hv
        obtain ⟨hmem, hlb, hm0⟩ := (ih (some (min u a))).2 v hv
        have hvmin : v ≤ min u a := hm0 _ rfl
        refine ⟨?_, ?_, ?_⟩
        · rcases hmem with h | h
          · exact Or.inl (List.mem_cons_of_mem _ h)
          · have hva : min u a = v := Option.some_inj.mp h
            rcases min_cases u a with ⟨he, _⟩ | ⟨he, _⟩
            · exact Or.inr (by rw [← hva, he])
            · exact Or.inl (by rw [← hva, he]; exact List.mem_cons_self a t)
        · intro w hw
          rcases List.mem_cons.mp hw with rfl | hw2
          · exact hvmin.trans (min_le_right _ _)
          · exact hlb _ hw2
        · intro w hww
          exact Option.some_inj.mp hww ▸ hvmin.trans (min_le_left _ _)

/-- C1: after every sequence of `OptimizerHistory.update` calls, `fval_min`
equals the minimum over all non-missing function values passed so far
(`none`, i.e. `np.inf`, exactly when there was none), it starts at `np.inf`
before any update, and each single update leaves it unchanged or decreases it
(`none = np.inf` is the top of the order). -/
theorem fval_min_is_running_minimum :
    (∀ x0 : List ℚ, (freshOptimizerHistory x0).fval_min = none) ∧
    (∀ (x0 : List ℚ) (updates : List (List ℚ × ResultMap)),
      ((run_update_vals (freshOptimizerHistory x0) updates).fval_min = none ↔
        updates.filterMap (fun u => u.2.fval) = []) ∧
      (∀ v, (run_update_vals (freshOptimizerHistory x0) updates).fval_min = some v →
        v ∈ updates.filterMap (fun u => u.2.fval) ∧
          ∀ w ∈ updates.filterMap (fun u => u.2.fval), v ≤ w)) ∧
    (∀ (s : OptimizerHistoryState) (x : List ℚ) (r : ResultMap),
      fvalMinLe (update_vals s x r).fval_min s.fval_min) := by
  refine ⟨fun x0 => rfl, fun x0 updates => ?_, fun s x r => ?_⟩
  · have hrun := run_update_vals_fval_min updates (freshOptimizerHistory x0)
    rw [show (freshOptimizerHistory x0).fval_min = none from rfl] at hrun
    have hspec := foldl_ominStep_spec (updates.filterMap (fun u => u.2.fval)) none
    constructor
    · rw [hrun, hspec.1]
      simp
    · intro v hv
      rw [hrun] at hv
      obtain ⟨hmem, hlb, _⟩ := hspec.2 v hv
      refine ⟨?_, hlb⟩
      rcases hmem with h | h
      · exact h
      · exact absurd h (by simp)
  · rw [update_vals_fval_min]
    cases hf : r.fval with
    | none => cases s.fval_min <;> simp [fvalMinLe]
    | some v =>
      cases hm : s.fval_min with
      | none => simp [ominStep, fvalMinLe]
      | some w => simp [ominStep, fvalMinLe, min_le_left]

/-- Witness for C1 at a concrete two-update run: the final `fval_min` is `3`
and `3` is the minimum of the recorded values `[5, 3]`. -/
theorem fval_min_is_running_minimum_witness :
    (3 : ℚ) ∈ ([(([0], { fval := some 5 }) : List ℚ × ResultMap),
        ([1], { fval := some 3 })].filterMap (fun u => u.2.fval)) ∧
      ∀ w ∈ ([(([0], { fval := some 5 }) : List ℚ × ResultMap),
        ([1], { fval := some 3 })].filterMap (fun u => u.2.fval)), (3 : ℚ) ≤ w :=
  (fval_min_is_running_minimum.2.1 [0]
      [([0], { fval := some 5 }), ([1], { fval := some 3 })]).2 3
    (by with_unfolding_all decide)

theorem update_vals_improve (s : OptimizerHistoryState) (x : List ℚ)
    (r : ResultMap) (v : ℚ) (hv : r.fval = some v)
    (hlt : ltFvalMin v s.fval_min = true) :
    (update_vals s x r).grad_min = r.grad ∧
    (update_vals s x r).hess_min = r.hess ∧
    (update_vals s x r).res_min = r.res ∧
    (update_vals s x r).sres_min = r.sres ∧
    (update_vals s x r).fval_min = some v ∧
    (update_vals s x r).x_min = some x := by
  have h1 := update_vals_initial_fields s x r
  unfold update_vals
  have hbest : update_vals_best (update_vals_initial s x r) x r =
      { update_vals_initial s x r with
        fval_min := some v
        x_min := some x
        grad_min := r.grad
        hess_min := r.hess
        res_min := r.res
        sres_min := r.sres } := by
    unfold update_vals_best
    simp only [hv]
    rw [h1.1]
    simp [hlt]
  rw [hbest]
  unfold update_vals_backfill
  refine ⟨?_, ?_, ?_, ?_, ?_, ?_⟩ <;>
    simp <;> cases r.grad <;> cases r.hess <;> cases r.res <;> cases r.sres <;> simp

/-- C5: an update whose `x` equals the current best point's `x` back-fills
every still-unset best-point sensitivity field from this call's result (when
the call's `fval` does not improve on `fval_min`, a set field is kept and an
unset one takes this call's value; when it does improve, the whole tuple is
replaced, so an unset field again ends up with this call's value); and the
concrete scenario — updates at `x=[0,0]` (value 10), `x=[1,1]` (value 4),
`x=[1,1]` (gradient `[0.1, 0.1]`, no value) — ends with `fval_min = 4`,
`x_min = [1, 1]`, `grad_min = [0.1, 0.1]`. -/
theorem best_point_backfill :
    (∀ (s : OptimizerHistoryState) (x : List ℚ) (r : ResultMap),
      s.x_min = some x →
      (r.fval = none ∨ ∀ v, r.fval = some v → ltFvalMin v s.fval_min = false) →
      (update_vals s x r).grad_min = (s.grad_min <|> r.grad) ∧
      (update_vals s x r).hess_min = (s.hess_min <|> r.hess) ∧
      (update_vals s x r).res_min = (s.res_min <|> r.res) ∧
      (update_vals s x r).sres_min = (s.sres_min <|> r.sres)) ∧
    (∀ (s : OptimizerHistoryState) (x : List ℚ) (r : ResultMap),
      s.x_min = some x →
      (s.grad_min = none → (update_vals s x r).grad_min = r.grad) ∧
      (s.hess_min = none → (update_vals s x r).hess_min = r.hess) ∧
      (s.res_min = none → (update_vals s x r).res_min = r.res) ∧
      (s.sres_min = none → (update_vals s x r).sres_min = r.sres)) ∧
    ((run_update_vals (freshOptimizerHistory [0, 0])
        [([0, 0], { fval := some 10 }),
         ([1, 1], { fval := some 4 }),
         ([1, 1], { grad := some [1/10, 1/10] })]).fval_min = some 4 ∧
     (run_update_vals (freshOptimizerHistory [0, 0])
        [([0, 0], { fval := some 10 }),
         ([1, 1], { fval := some 4 }),
         ([1, 1], { grad := some [1/10, 1/10] })]).x_min = some [1, 1] ∧
     (run_update_vals (freshOptimizerHistory [0, 0])
        [([0, 0], { fval := some 10 }),
         ([1, 1], { fval := some 4 }),
         ([1, 1], { grad := some [1/10, 1/10] })]).grad_min = some [1/10, 1/10]) := by
  have hA : ∀ (s : OptimizerHistoryState) (x : List ℚ) (r : ResultMap),
      s.x_min = some x →
      (r.fval = none ∨ ∀ v, r.fval = some v → ltFvalMin v s.fval_min = false) →
      (update_vals s x r).grad_min = (s.grad_min <|> r.grad) ∧
      (update_vals s x r).hess_min = (s.hess_min <|> r.hess) ∧
      (update_vals s x r).res_min = (s.res_min <|> r.res) ∧
      (update_vals s x r).sres_min = (s.sres_min <|> r.sres) := by
    intro s x r hx hnf
    have h1 := update_vals_initial_fields s x r
    have hs2 : update_vals_best (update_vals_initial s x r) x r =
        update_vals_initial s x r := by
      unfold update_vals_best
      cases hf : r.fval with
      | none => simp only [hf]
      | some v =>
        simp only [hf]
        rcases hnf with h | h
        · rw [h] at hf
          cases hf
        · rw [h1.1, h v hf]
          simp
    unfold update_vals
    rw [hs2]
    unfold update_vals_backfill
    rw [if_pos (h1.2.1.trans hx)]
    exact ⟨by simp [h1.2.2.1], by simp [h1.2.2.2.1],
      by simp [h1.2.2.2.2.1], by simp [h1.2.2.2.2.2]⟩
  refine ⟨hA, ?_, ?_⟩
  · intro s x r hx
    by_cases himp : ∃ v, r.fval = some v ∧ ltFvalMin v s.fval_min = true
    · obtain ⟨v, hv, hlt⟩ := himp
      obtain ⟨hg, hh, hr2, hsr, _, _⟩ := update_vals_improve s x r v hv hlt
      exact ⟨fun _ => hg, fun _ => hh, fun _ => hr2, fun _ => hsr⟩
    · have hnone : r.fval = none ∨
          ∀ v, r.fval = some v → ltFvalMin v s.fval_min = false := by
        cases hf : r.fval with
        | none => exact Or.inl rfl
        | some v =>
          right
          intro w hw
          injection hw with hw2
          subst hw2
          cases hb : ltFvalMin v s.fval_min with
          | false => rfl
          | true => exact absurd ⟨v, hf, hb⟩ himp
      obtain ⟨hg, hh, hr2, hsr⟩ := hA s x r hx hnone
      refine ⟨fun h0 => ?_, fun h0 => ?_, fun h0 => ?_, fun h0 => ?_⟩
      · rw [hg, h0]
        simp
      · rw [hh, h0]
        simp
      · rw [hr2, h0]
        simp
      · rw [hsr, h0]
        simp
  · refine ⟨?_, ?_, ?_⟩ <;> with_unfolding_all decide

/-- Witness for C5's general part: a state whose best `x` is `[1]` with an
unset gradient gets it back-filled by a gradient-only call at `[1]`. -/
theorem best_point_backfill_witness :
    (update_vals
        { x0 := [0], fval_min := some 4, x_min := some [1] } [1]
        { grad := some [2] }).grad_min = (none <|> some [2]) ∧
    (update_vals
        { x0 := [0], fval_min := some 4, x_min := some [1] } [1]
        { grad := some [2] }).hess_min = (none <|> none) ∧
    (update_vals
        { x0 := [0], fval_min := some 4, x_min := some [1] } [1]
        { grad := some [2] }).res_min = (none <|> none) ∧
    (update_vals
        { x0 := [0], fval_min := some 4, x_min := some [1] } [1]
        { grad := some [2] }).sres_min = (none <|> none) :=
  best_point_backfill.1 { x0 := [0], fval_min := some 4, x_min := some [1] } [1]
    { grad := some [2] } rfl (Or.inl rfl)

/-- C4: after any sequence of `update` calls, each counter equals the number
of calls whose sensitivity-order set matched it (`n_fval`: order 0 in
function mode; `n_grad`: 1/function; `n_hess`: 2/function; `n_res`:
0/residual; `n_sres`: 1/residual); each single call increments a counter by
exactly one when it matches and zero otherwise, so counters never decrease. -/
theorem counters_count_matching_calls :
    (∀ (calls : List (List Nat × Mode)),
      (calls.foldl (fun c p => update_counts c p.1 p.2) {}).n_fval =
        calls.countP (fun p => p.2 == Mode.fn && p.1.contains 0) ∧
      (calls.foldl (fun c p => update_counts c p.1 p.2) {}).n_grad =
        calls.countP (fun p => p.2 == Mode.fn && p.1.contains 1) ∧
      (calls.foldl (fun c p => update_counts c p.1 p.2) {}).n_hess =
        calls.countP (fun p => p.2 == Mode.fn && p.1.contains 2) ∧
      (calls.foldl (fun c p => update_counts c p.1 p.2) {}).n_res =
        calls.countP (fun p => p.2 == Mode.res && p.1.contains 0) ∧
      (calls.foldl (fun c p => update_counts c p.1 p.2) {}).n_sres =
        calls.countP (fun p => p.2 == Mode.res && p.1.contains 1)) ∧
    (∀ (c : Counters) (so : List Nat) (m : Mode),
      (update_counts c so m).n_fval =
        c.n_fval + (if m == Mode.fn && so.contains 0 then 1 else 0) ∧
      (update_counts c so m).n_grad =
        c.n_grad + (if m == Mode.fn && so.contains 1 then 1 else 0) ∧
      (update_counts c so m).n_hess =
        c.n_hess + (if m == Mode.fn && so.contains 2 then 1 else 0) ∧
      (update_counts c so m).n_res =
        c.n_res + (if m == Mode.res && so.contains 0 then 1 else 0) ∧
      (update_counts c so m).n_sres =
        c.n_sres + (if m == Mode.res && so.contains 1 then 1 else 0)) ∧
    (∀ (c : Counters) (so : List Nat) (m : Mode),
      c.n_fval ≤ (update_counts c so m).n_fval ∧
      c.n_grad ≤ (update_counts c so m).n_grad ∧
      c.n_hess ≤ (update_counts c so m).n_hess ∧
      c.n_res ≤ (update_counts c so m).n_res ∧
      c.n_sres ≤ (update_counts c so m).n_sres) := by
  have hstep : ∀ (c : Counters) (so : List Nat) (m : Mode),
      (update_counts c so m).n_fval =
        c.n_fval + (if m == Mode.fn && so.contains 0 then 1 else 0) ∧
      (update_counts c so m).n_grad =
        c.n_grad + (if m == Mode.fn && so.contains 1 then 1 else 0) ∧
      (update_counts c so m).n_hess =
        c.n_hess + (if m == Mode.fn && so.contains 2 then 1 else 0) ∧
      (update_counts c so m).n_res =
        c.n_res + (if m == Mode.res && so.contains 0 then 1 else 0) ∧
      (update_counts c so m).n_sres =
        c.n_sres + (if m == Mode.res && so.contains 1 then 1 else 0) := by
    intro c so m
    cases m <;>
      refine ⟨?_, ?_, ?_, ?_, ?_⟩ <;>
      simp [update_counts, List.contains, List.elem_eq_mem]
  have hfold : ∀ (calls : List (List Nat × Mode)) (c : Counters),
      (calls.foldl (fun c p => update_counts c p.1 p.2) c).n_fval =
        c.n_fval + calls.countP (fun p => p.2 == Mode.fn && p.1.contains 0) ∧
      (calls.foldl (fun c p => update_counts c p.1 p.2) c).n_grad =
        c.n_grad + calls.countP (fun p => p.2 == Mode.fn && p.1.contains 1) ∧
      (calls.foldl (fun c p => update_counts c p.1 p.2) c).n_hess =
        c.n_hess + calls.countP (fun p => p.2 == Mode.fn && p.1.contains 2) ∧
      (calls.foldl (fun c p => update_counts c p.1 p.2) c).n_res =
        c.n_res + calls.countP (fun p => p.2 == Mode.res && p.1.contains 0) ∧
      (calls.foldl (fun c p => update_counts c p.1 p.2) c).n_sres =
        c.n_sres + calls.countP (fun p => p.2 == Mode.res && p.1.contains 1) := by
    intro calls
    induction calls with
    | nil => intro c; simp
    | cons p t ih =>
      intro c
      have hs := hstep c p.1 p.2
      have ht := ih (update_counts c p.1 p.2)
      refine ⟨?_, ?_, ?_, ?_, ?_⟩ <;>
        simp only [List.foldl_cons, List.countP_cons] <;>
        [rw [ht.1, hs.1]; rw [ht.2.1, hs.2.1]; rw [ht.2.2.1, hs.2.2.1];
          rw [ht.2.2.2.1, hs.2.2.2.1]; rw [ht.2.2.2.2, hs.2.2.2.2]] <;>
        rcases h : (fun p : List Nat × Mode => p.2 == Mode.fn && p.1.contains 0) p with _ | _ <;>
        omega
  refine ⟨fun calls => ?_, hstep, fun c so m => ?_⟩
  · have h := hfold calls {}
    simpa using h
  · have hs := hstep c so m
    refine ⟨?_, ?_, ?_, ?_, ?_⟩ <;>
      [rw [hs.1]; rw [hs.2.1]; rw [hs.2.2.1]; rw [hs.2.2.2.1]; rw [hs.2.2.2.2]] <;>
      omega

theorem copyIf_eq_none {α : Type} (flag : Bool) (v : Option α)
    (h : flag = false ∨ v = none) : copyIf flag v = none := by
  rcases h with h | h <;> cases flag <;> simp_all [copyIf]

theorem extract_values_res_eq (rv : ResultMap) (o : HistoryOptions) :
    extract_values Mode.res rv o =
      { fval := rv.fval
        grad := (copyIf o.trace_record_grad rv.grad) <|>
          (sres_to_schi2 rv.res rv.sres).map (fun v => v.map (fun q => (1 / 2 : ℚ) * q))
        hess := (copyIf o.trace_record_hess rv.hess) <|> sres_to_fim rv.sres
        res := copyIf o.trace_record_res rv.res
        sres := copyIf o.trace_record_sres rv.sres
        chi2 := (copyIf o.trace_record_chi2 rv.chi2) <|> res_to_chi2 rv.res
        schi2 := (copyIf o.trace_record_schi2 rv.schi2) <|> sres_to_schi2 rv.res rv.sres } :=
  rfl

/-- C2: in residual mode, whenever a derivable quantity was not copied (flag
disabled or key absent) and its source is available, `extract_values` derives
it — chi-square as the sum of squared residuals, its sensitivity as
`2 * J^T r`, the Hessian approximation as `J^T J`, and the gradient as
`0.5 * schi2` (only when the derived chi-square sensitivity is available);
quantities that stay absent (such as `fval` here) keep the missing marker;
and for `r = [3, 4]`, `J = [[1,0],[0,1]]` the extracted record has chi-square
`25`, chi-square sensitivity `[6, 8]`, Hessian `[[1,0],[0,1]]`, gradient
`[3, 4]`. -/
theorem extract_values_derivation :
    (∀ (o : HistoryOptions) (rv : ResultMap) (r : List ℚ),
      rv.res = some r → (o.trace_record_chi2 = false ∨ rv.chi2 = none) →
      (extract_values Mode.res rv o).chi2 = some (listDot r r)) ∧
    (∀ (o : HistoryOptions) (rv : ResultMap) (r : List ℚ) (S : List (List ℚ)),
      rv.res = some r → rv.sres = some S →
      (o.trace_record_schi2 = false ∨ rv.schi2 = none) →
      (extract_values Mode.res rv o).schi2 =
        some ((vecMat r S).map (fun q => 2 * q))) ∧
    (∀ (o : HistoryOptions) (rv : ResultMap) (S : List (List ℚ)),
      rv.sres = some S → (o.trace_record_hess = false ∨ rv.hess = none) →
      (extract_values Mode.res rv o).hess =
        some ((matT S).map (fun ci => (matT S).map (fun cj => listDot ci cj)))) ∧
    (∀ (o : HistoryOptions) (rv : ResultMap) (r : List ℚ) (S : List (List ℚ)),
      rv.res = some r → rv.sres = some S →
      (o.trace_record_grad = false ∨ rv.grad = none) →
      (extract_values Mode.res rv o).grad =
        some (((vecMat r S).map (fun q => 2 * q)).map (fun q => (1 / 2 : ℚ) * q))) ∧
    (∀ (o : HistoryOptions) (rv : ResultMap),
      rv.sres = none → (o.trace_record_grad = false ∨ rv.grad = none) →
      (extract_values Mode.res rv o).grad = none) ∧
    (∀ (o : HistoryOptions) (rv : ResultMap),
      (extract_values Mode.res rv o).fval = rv.fval) ∧
    (extract_values Mode.res { res := some [3, 4], sres := some [[1, 0], [0, 1]] } {} =
      { fval := none, grad := some [3, 4], hess := some [[1, 0], [0, 1]],
        res := some [3, 4], sres := some [[1, 0], [0, 1]],
        chi2 := some 25, schi2 := some [6, 8] }) := by
  refine ⟨?_, ?_, ?_, ?_, ?_, ?_, ?_⟩
  · intro o rv r hr hc
    rw [extract_values_res_eq]
    simp [copyIf_eq_none _ _ hc, hr, res_to_chi2]
  · intro o rv r S hr hS hc
    rw [extract_values_res_eq]
    simp [copyIf_eq_none _ _ hc, hr, hS, sres_to_schi2]
  · intro o rv S hS hc
    rw [extract_values_res_eq]
    simp [copyIf_eq_none _ _ hc, hS, sres_to_fim]
  · intro o rv r S hr hS hc
    rw [extract_values_res_eq]
    simp [copyIf_eq_none _ _ hc, hr, hS, sres_to_schi2]
  · intro o rv hS hc
    rw [extract_values_res_eq]
    simp [copyIf_eq_none _ _ hc, hS, sres_to_schi2]
  · intro o rv
    rw [extract_values_res_eq]
  · with_unfolding_all decide

/-- Witness for C2 at concrete inputs: a disabled chi-square flag with
residuals `[1, 2]` yields the derived sum of squares, and a residual-only
result derives no gradient. -/
theorem extract_values_derivation_witness :
    (extract_values Mode.res { res := some [1, 2], chi2 := some 99 }
        { trace_record_chi2 := false }).chi2 = some (listDot [1, 2] [1, 2]) ∧
    (extract_values Mode.res { res := some [1, 2] } {}).grad = none :=
  ⟨extract_values_derivation.1 { trace_record_chi2 := false }
      { res := some [1, 2], chi2 := some 99 } [1, 2] rfl (Or.inl rfl),
   extract_values_derivation.2.2.2.2.1 {} { res := some [1, 2] } rfl (Or.inr rfl)⟩

/-- C10: in residual mode with a quantity's recording flag disabled, its raw
value in the result mapping is not copied, and whenever the residuals and the
residual Jacobian are both present the derived value is returned instead of
the missing marker — the conclusions do not depend on the raw `chi2`,
`schi2`, `hess`, `grad` entries, which are discarded. -/
theorem extract_values_disabled_flags_still_derive :
    ∀ (o : HistoryOptions) (rv : ResultMap) (r : List ℚ) (S : List (List ℚ)),
      o.trace_record_chi2 = false → o.trace_record_schi2 = false →
      o.trace_record_hess = false → o.trace_record_grad = false →
      rv.res = some r → rv.sres = some S →
      (extract_values Mode.res rv o).chi2 = some (listDot r r) ∧
      (extract_values Mode.res rv o).schi2 =
        some ((vecMat r S).map (fun q => 2 * q)) ∧
      (extract_values Mode.res rv o).hess =
        some ((matT S).map (fun ci => (matT S).map (fun cj => listDot ci cj))) ∧
      (extract_values Mode.res rv o).grad =
        some (((vecMat r S).map (fun q => 2 * q)).map (fun q => (1 / 2 : ℚ) * q)) := by
  intro o rv r S h1 h2 h3 h4 hr hS
  exact ⟨extract_values_derivation.1 o rv r hr (Or.inl h1),
    extract_values_derivation.2.1 o rv r S hr hS (Or.inl h2),
    extract_values_derivation.2.2.1 o rv S hS (Or.inl h3),
    extract_values_derivation.2.2.2.1 o rv r S hr hS (Or.inl h4)⟩

/-- Witness for C10: all four flags disabled, raw `chi2 = 999`, `schi2 = [1]`,
`hess = [[5]]`, `grad = [7]` present in the result — the extracted record
nevertheless carries the derived values (e.g. chi-square `25`, not `999`). -/
theorem extract_values_disabled_flags_still_derive_witness :
    ((extract_values Mode.res
        { res := some [3, 4], sres := some [[1, 0], [0, 1]], chi2 := some 999,
          schi2 := some [1], hess := some [[5]], grad := some [7] }
        { trace_record_chi2 := false, trace_record_schi2 := false,
          trace_record_hess := false, trace_record_grad := false }).chi2 =
      some (listDot [3, 4] [3, 4]) ∧
    (extract_values Mode.res
        { res := some [3, 4], sres := some [[1, 0], [0, 1]], chi2 := some 999,
          schi2 := some [1], hess := some [[5]], grad := some [7] }
        { trace_record_chi2 := false, trace_record_schi2 := false,
          trace_record_hess := false, trace_record_grad := false }).schi2 =
      some ((vecMat [3, 4] [[1, 0], [0, 1]]).map (fun q => 2 * q)) ∧
    (extract_values Mode.res
        { res := some [3, 4], sres := some [[1, 0], [0, 1]], chi2 := some 999,
          schi2 := some [1], hess := some [[5]], grad := some [7] }
        { trace_record_chi2 := false, trace_record_schi2 := false,
          trace_record_hess := false, trace_record_grad := false }).hess =
      some ((matT [[1, 0], [0, 1]]).map
        (fun ci => (matT [[1, 0], [0, 1]]).map (fun cj => listDot ci cj))) ∧
    (extract_values Mode.res
        { res := some [3, 4], sres := some [[1, 0], [0, 1]], chi2 := some 999,
          schi2 := some [1], hess := some [[5]], grad := some [7] }
        { trace_record_chi2 := false, trace_record_schi2 := false,
          trace_record_hess := false, trace_record_grad := false }).grad =
      some (((vecMat [3, 4] [[1, 0], [0, 1]]).map (fun q => 2 * q)).map
        (fun q => (1 / 2 : ℚ) * q))) ∧
    some (listDot [3, 4] [3, 4]) ≠ some (999 : ℚ) :=
  ⟨extract_values_disabled_flags_still_derive
      { trace_record_chi2 := false, trace_record_schi2 := false,
        trace_record_hess := false, trace_record_grad := false }
      { res := some [3, 4], sres := some [[1, 0], [0, 1]], chi2 := some 999,
        schi2 := some [1], hess := some [[5]], grad := some [7] }
      [3, 4] [[1, 0], [0, 1]] rfl rfl rfl rfl rfl rfl,
   by with_unfolding_all decide⟩

/-- One `update` call: parameter vector, requested sensitivity orders, mode,
raw result, and the elapsed wall time observed during the call (the clock is
modelled as an input). -/
structure Upd where
  x : List ℚ
  sensi_orders : List Nat := [0]
  mode : Mode := Mode.fn
  result : ResultMap := {}
  t : ℚ := 0
deriving DecidableEq, Repr

/-- One entry of the `MemoryHistory` per-key trace lists (all lists are
appended to in lockstep, so they are modelled as one list of records). -/
structure MemEntry where
  vals : ExtractedValues
  x : List ℚ
  time : ℚ
deriving DecidableEq, Repr

/-- State of a `MemoryHistory`: counters plus the in-memory trace. -/
structure MemoryState where
  counters : Counters := {}
  trace : List MemEntry := []
deriving DecidableEq, Repr

/-- `MemoryHistory.update`: bump the counters, then append the extracted
record unconditionally of the recording flags (`_update_trace` has no
`trace_record` guard in this backend). -/
def memory_update (o : HistoryOptions) (s : MemoryState) (u : Upd) : MemoryState :=
  { counters := update_counts s.counters u.sensi_orders u.mode
    trace := s.trace ++ [⟨extract_values u.mode u.result o, u.x, u.t⟩] }

/-- `MemoryHistory.__len__`: the length of the `TIME` trace list. -/
def memory_len (s : MemoryState) : Nat :=
  s.trace.length

/-- One row of the `CsvHistory` table: elapsed time, the counter values at the
time of the row, and the extracted quantities; the `grad` and `schi2` columns
hold `NaN` (`none`) when their recording flag is disabled. -/
structure CsvRow where
  time : ℚ
  n_fval : Nat
  n_grad : Nat
  n_hess : Nat
  n_res : Nat
  n_sres : Nat
  fval : Option ℚ
  res : Option (List ℚ)
  sres : Option (List (List ℚ))
  chi2 : Option ℚ
  hess : Option (List (List ℚ))
  x : List ℚ
  grad : Option (List ℚ)
  schi2 : Option (List ℚ)
deriving DecidableEq, Repr

/-- State of a `CsvHistory`: counters plus the lazily initialized table
(`_trace` is `None` until the first accepted update; `len(None)` raises, so
the length query is only defined once the table exists). -/
structure CsvState where
  counters : Counters := {}
  trace : Option (List CsvRow) := none
deriving DecidableEq, Repr

/-- `CsvHistory.update`: bump the counters (in `super().update`, hence before
the row is built), then — only if `trace_record` is enabled — initialize the
table if needed and append one row. -/
def csv_update (o : HistoryOptions) (s : CsvState) (u : Upd) : CsvState :=
  let c := update_counts s.counters u.sensi_orders u.mode
  if o.trace_record = false then { counters := c, trace := s.trace }
  else
    let ret := extract_values u.mode u.result o
    let row : CsvRow :=
      { time := u.t
        n_fval := c.n_fval, n_grad := c.n_grad, n_hess := c.n_hess
        n_res := c.n_res, n_sres := c.n_sres
        fval := ret.fval, res := ret.res, sres := ret.sres
        chi2 := ret.chi2, hess := ret.hess
        x := u.x
        grad := copyIf o.trace_record_grad ret.grad
        schi2 := copyIf o.trace_record_schi2 ret.schi2 }
    { counters := c, trace := some ((s.trace.getD []) ++ [row]) }

/-- `CsvHistory.__len__` is `len(self._trace)`: `none` models the `TypeError`
raised when the table was never initialized. -/
def csv_len (s : CsvState) : Option Nat :=
  s.trace.map List.length

/-- One iteration group written by `Hdf5History._update_trace`.  Every key of
its `values` dict is written (a missing quantity is written as `np.NaN`,
which reads back as an all-NaN entry); `none` models exactly the values that
`_check_for_not_nan_entries` treats as missing.  `schi2` is not among the
written keys. -/
structure Hdf5Entry where
  time : ℚ
  x : List ℚ
  fval : Option ℚ
  grad : Option (List ℚ)
  res : Option (List ℚ)
  sres : Option (List (List ℚ))
  chi2 : Option ℚ
  hess : Option (List (List ℚ))
deriving DecidableEq, Repr

/-- State of an `Hdf5History`: the durable attributes (five counters,
`n_iterations`, `trace_save_iter`) and the per-iteration groups. -/
structure Hdf5State where
  counters : Counters := {}
  n_iterations : Nat := 0
  store : List Hdf5Entry := []
  trace_save_iter : Nat := 10
deriving DecidableEq, Repr

/-- `Hdf5History.__init__` / `_generate_hdf5_group` on a fresh file: all
counters zero, `trace_save_iter` from the options. -/
def hdf5_fresh (o : HistoryOptions) : Hdf5State :=
  { trace_save_iter := o.trace_save_iter }

/-- The entry `Hdf5History._update_trace` writes for one update. -/
def hdf5_entry_of (o : HistoryOptions) (u : Upd) : Hdf5Entry :=
  let ret := extract_values u.mode u.result o
  { time := u.t, x := u.x, fval := ret.fval, grad := ret.grad, res := ret.res,
    sres := ret.sres, chi2 := ret.chi2, hess := ret.hess }

/-- `Hdf5History.update`: bump the durable counters (always), then — only if
`trace_record` is enabled — write the iteration group and increment
`n_iterations`. -/
def hdf5_update (o : HistoryOptions) (s : Hdf5State) (u : Upd) : Hdf5State :=
  let c := update_counts s.counters u.sensi_orders u.mode
  if o.trace_record = false then { s with counters := c }
  else
    { s with
      counters := c
      n_iterations := s.n_iterations + 1
      store := s.store ++ [hdf5_entry_of o u] }

/-- `Hdf5History` does not override `__len__`; it inherits
`HistoryBase.__len__`, which raises `NotImplementedError`.  `none` models the
raised exception. -/
def hdf5_len (_s : Hdf5State) : Option Nat :=
  none

/-- `HistoryBase.__len__` for the counter-only `History` backend: always
raises `NotImplementedError` (`none`). -/
def history_len : Option Nat :=
  none

/-- `Hdf5History._get_hdf5_entries(entry_id)`: scan iterations
`0 .. n_iterations - 1`, reading the selected quantity and yielding `none`
(`KeyError -> None`, or a stored all-NaN entry) when it is missing. -/
def hdf5_get_entries {α : Type} (s : Hdf5State) (sel : Hdf5Entry → Option α) :
    List (Option α) :=
  (List.range s.n_iterations).map (fun i => (s.store.get? i).bind sel)

/-- `Hdf5History._check_for_not_nan_entries(group)`: does any iteration hold a
non-missing, not-all-NaN value for this quantity? -/
def hdf5_check_not_nan {α : Type} (s : Hdf5State) (sel : Hdf5Entry → Option α) : Bool :=
  (hdf5_get_entries s sel).any (fun e => e.isSome)

/-- `Hdf5History._recover_options(file)` as performed by `load`: infer each
recording flag by testing the stored entries; `trace_save_iter` is read from
the durable attribute and `storage_file` is the reloaded path.  `schi2` is
never written by `_update_trace`, so its selector always yields `none`. -/
def hdf5_recover_options (s : Hdf5State) (file : String) : HistoryOptions :=
  { trace_record := hdf5_check_not_nan s (fun e => some e.x)
    trace_record_grad := hdf5_check_not_nan s (fun e => e.grad)
    trace_record_hess := hdf5_check_not_nan s (fun e => e.hess)
    trace_record_res := hdf5_check_not_nan s (fun e => e.res)
    trace_record_sres := hdf5_check_not_nan s (fun e => e.sres)
    trace_record_chi2 := hdf5_check_not_nan s (fun e => e.chi2)
    trace_record_schi2 := hdf5_check_not_nan s (fun _ => (none : Option (List ℚ)))
    trace_save_iter := s.trace_save_iter
    storage_file := some file }

theorem memory_run_len (o : HistoryOptions) :
    ∀ (us : List Upd) (s : MemoryState),
      (us.foldl (memory_update o) s).trace.length = s.trace.length + us.length := by
  intro us
  induction us with
  | nil => intro s; simp
  | cons u t ih =>
    intro s
    show (t.foldl (memory_update o) (memory_update o s u)).trace.length = _
    rw [ih]
    simp [memory_update]
    omega

theorem csv_run_trace (o : HistoryOptions) (hrec : o.trace_record = true) :
    ∀ (us : List Upd) (s : CsvState) (rows : List CsvRow), s.trace = some rows →
      ∃ rows2 : List CsvRow, (us.foldl (csv_update o) s).trace = some rows2 ∧
        rows2.length = rows.length + us.length := by
  intro us
  induction us with
  | nil =>
    intro s rows hs
    exact ⟨rows, hs, by simp⟩
  | cons u t ih =>
    intro s rows hs
    have hstep : (csv_update o s u).trace = some (rows ++
        [{ time := u.t,
           n_fval := (update_counts s.counters u.sensi_orders u.mode).n_fval,
           n_grad := (update_counts s.counters u.sensi_orders u.mode).n_grad,
           n_hess := (update_counts s.counters u.sensi_orders u.mode).n_hess,
           n_res := (update_counts s.counters u.sensi_orders u.mode).n_res,
           n_sres := (update_counts s.counters u.sensi_orders u.mode).n_sres,
           fval := (extract_values u.mode u.result o).fval,
           res := (extract_values u.mode u.result o).res,
           sres := (extract_values u.mode u.result o).sres,
           chi2 := (extract_values u.mode u.result o).chi2,
           hess := (extract_values u.mode u.result o).hess,
           x := u.x,
           grad := copyIf o.trace_record_grad (extract_values u.mode u.result o).grad,
           schi2 := copyIf o.trace_record_schi2 (extract_values u.mode u.result o).schi2 }]) := by
      unfold csv_update
      rw [hrec]
      simp [hs]
    obtain ⟨rows2, h2, hlen⟩ := ih (csv_update o s u) _ hstep
    refine ⟨rows2, h2, ?_⟩
    rw [hlen]
    simp
    omega

/-- C3 counterexample: with tracing enabled, a single update to a fresh
hierarchical backend stores one iteration (`n_iterations = 1`) yet the length
query is unsupported — `Hdf5History` inherits `HistoryBase.__len__`, which
raises, so it does not return `1`; likewise the flat-file backend with the
(default) disabled tracing flag, and even a fresh flat-file backend with
tracing enabled (its table is uninitialized, `len(None)` raises, instead of
returning `0`). -/
theorem backend_length_counterexample :
    hdf5_len (hdf5_update { trace_record := true }
        (hdf5_fresh { trace_record := true }) { x := [0] }) ≠ some 1 ∧
    (hdf5_update { trace_record := true }
        (hdf5_fresh { trace_record := true }) { x := [0] }).n_iterations = 1 ∧
    csv_len (csv_update {} {} { x := [0] }) ≠ some 1 ∧
    csv_len ({} : CsvState) ≠ some 0 := by
  refine ⟨?_, ?_, ?_, ?_⟩ <;> with_unfolding_all decide

/-- C3 (amended): for every sequence of `N` update calls, the in-memory
backend's length equals `N`; the flat-file backend's length equals `N` when
the master tracing flag is enabled and `N ≥ 1` (otherwise its table is never
initialized and the query fails); the counter-only and hierarchical backends
do not support the length query. -/
theorem backend_length :
    ∀ (o : HistoryOptions) (us : List Upd),
      memory_len (us.foldl (memory_update o) {}) = us.length ∧
      (o.trace_record = true → us ≠ [] →
        csv_len (us.foldl (csv_update o) {}) = some us.length) ∧
      hdf5_len (us.foldl (hdf5_update o) (hdf5_fresh o)) = none ∧
      history_len = none := by
  intro o us
  refine ⟨?_, ?_, rfl, rfl⟩
  · unfold memory_len
    rw [memory_run_len o us {}]
    simp
  · intro hrec hne
    match us with
    | [] => exact absurd rfl hne
    | u :: t =>
      have hstep : ∃ rows : List CsvRow,
          (csv_update o {} u).trace = some rows ∧ rows.length = 1 := by
        unfold csv_update
        rw [hrec]
        simp
      obtain ⟨rows, hr, hr1⟩ := hstep
      obtain ⟨rows2, h2, hlen⟩ := csv_run_trace o hrec t (csv_update o {} u) rows hr
      show csv_len (t.foldl (csv_update o) (csv_update o {} u)) = _
      unfold csv_len
      rw [h2]
      simp [hlen, hr1]
      omega

/-- Witness for C3's amended statement: two updates with tracing enabled give
length 2 for the in-memory and flat-file backends, while the hierarchical and
counter-only length queries fail. -/
theorem backend_length_witness :
    memory_len ([({ x := [0] } : Upd), { x := [1] }].foldl
      (memory_update { trace_record := true }) {}) = 2 ∧
    csv_len ([({ x := [0] } : Upd), { x := [1] }].foldl
      (csv_update { trace_record := true }) {}) = some 2 ∧
    hdf5_len ([({ x := [0] } : Upd), { x := [1] }].foldl
      (hdf5_update { trace_record := true })
      (hdf5_fresh { trace_record := true })) = none ∧
    history_len = none := by
  obtain ⟨h1, h2, h3, h4⟩ :=
    backend_length { trace_record := true } [{ x := [0] }, { x := [1] }]
  exact ⟨h1, h2 rfl (by simp), h3, h4⟩

theorem hdf5_run_store (o : HistoryOptions) (hrec : o.trace_record = true) :
    ∀ (us : List Upd) (s : Hdf5State),
      (us.foldl (hdf5_update o) s).store = s.store ++ us.map (hdf5_entry_of o) ∧
      (us.foldl (hdf5_update o) s).n_iterations = s.n_iterations + us.length ∧
      (us.foldl (hdf5_update o) s).trace_save_iter = s.trace_save_iter := by
  intro us
  induction us with
  | nil => intro s; simp
  | cons u t ih =>
    intro s
    have hstep : hdf5_update o s u =
        { s with
          counters := update_counts s.counters u.sensi_orders u.mode
          n_iterations := s.n_iterations + 1
          store := s.store ++ [hdf5_entry_of o u] } := by
      unfold hdf5_update
      rw [hrec]
      simp
    rw [List.foldl_cons, hstep]
    obtain ⟨ha, hb, hc⟩ := ih { s with
      counters := update_counts s.counters u.sensi_orders u.mode
      n_iterations := s.n_iterations + 1
      store := s.store ++ [hdf5_entry_of o u] }
    refine ⟨?_, ?_, ?_⟩
    · rw [ha]
      simp
    · rw [hb]
      simp
      omega
    · rw [hc]

theorem range_get_bind {α β : Type} (f : α → Option β) :
    ∀ (l : List α),
      (List.range l.length).map (fun i => (l.get? i).bind f) = l.map (fun a => f a) := by
  intro l
  induction l with
  | nil => rfl
  | cons a t ih =>
    show (List.range (t.length + 1)).map _ = _
    rw [List.range_succ_eq_map]
    simp only [List.map_cons, List.map_map]
    have h2 : List.map ((fun i => ((a :: t).get? i).bind f) ∘ Nat.succ)
        (List.range t.length) =
        List.map (fun i => (t.get? i).bind f) (List.range t.length) := rfl
    rw [h2, ih]
    rfl

theorem hdf5_get_entries_eq {α : Type} (s : Hdf5State) (sel : Hdf5Entry → Option α)
    (h : s.n_iterations = s.store.length) :
    hdf5_get_entries s sel = s.store.map (fun e => sel e) := by
  unfold hdf5_get_entries
  rw [h]
  exact range_get_bind sel s.store

/-- The round-trip and option-recovery property of the hierarchical backend
after writing the updates `us` under options `o`: every stored field reads
back exactly as written, and each recovered recording flag is true iff some
stored entry for that quantity is non-missing. -/
def Hdf5RoundTrip (o : HistoryOptions) (us : List Upd) (file : String) : Prop :=
  hdf5_get_entries (us.foldl (hdf5_update o) (hdf5_fresh o)) (fun e => e.fval) =
    us.map (fun u => (extract_values u.mode u.result o).fval) ∧
  hdf5_get_entries (us.foldl (hdf5_update o) (hdf5_fresh o)) (fun e => e.grad) =
    us.map (fun u => (extract_values u.mode u.result o).grad) ∧
  hdf5_get_entries (us.foldl (hdf5_update o) (hdf5_fresh o)) (fun e => e.res) =
    us.map (fun u => (extract_values u.mode u.result o).res) ∧
  hdf5_get_entries (us.foldl (hdf5_update o) (hdf5_fresh o)) (fun e => e.sres) =
    us.map (fun u => (extract_values u.mode u.result o).sres) ∧
  hdf5_get_entries (us.foldl (hdf5_update o) (hdf5_fresh o)) (fun e => e.chi2) =
    us.map (fun u => (extract_values u.mode u.result o).chi2) ∧
  hdf5_get_entries (us.foldl (hdf5_update o) (hdf5_fresh o)) (fun e => e.hess) =
    us.map (fun u => (extract_values u.mode u.result o).hess) ∧
  hdf5_get_entries (us.foldl (hdf5_update o) (hdf5_fresh o)) (fun e => some e.x) =
    us.map (fun u => some u.x) ∧
  hdf5_get_entries (us.foldl (hdf5_update o) (hdf5_fresh o)) (fun e => some e.time) =
    us.map (fun u => some u.t) ∧
  ((hdf5_recover_options (us.foldl (hdf5_update o) (hdf5_fresh o)) file).trace_record =
      true ↔ us ≠ []) ∧
  ((hdf5_recover_options (us.foldl (hdf5_update o) (hdf5_fresh o)) file).trace_record_grad =
      true ↔ ∃ u ∈ us, (extract_values u.mode u.result o).grad ≠ none) ∧
  ((hdf5_recover_options (us.foldl (hdf5_update o) (hdf5_fresh o)) file).trace_record_hess =
      true ↔ ∃ u ∈ us, (extract_values u.mode u.result o).hess ≠ none) ∧
  ((hdf5_recover_options (us.foldl (hdf5_update o) (hdf5_fresh o)) file).trace_record_res =
      true ↔ ∃ u ∈ us, (extract_values u.mode u.result o).res ≠ none) ∧
  ((hdf5_recover_options (us.foldl (hdf5_update o) (hdf5_fresh o)) file).trace_record_sres =
      true ↔ ∃ u ∈ us, (extract_values u.mode u.result o).sres ≠ none) ∧
  ((hdf5_recover_options (us.foldl (hdf5_update o) (hdf5_fresh o)) file).trace_record_chi2 =
      true ↔ ∃ u ∈ us, (extract_values u.mode u.result o).chi2 ≠ none) ∧
  (hdf5_recover_options (us.foldl (hdf5_update o) (hdf5_fresh o)) file).trace_record_schi2 =
    false ∧
  (hdf5_recover_options (us.foldl (hdf5_update o) (hdf5_fresh o)) file).trace_save_iter =
    o.trace_save_iter

/-- C7: writing `N` iterations to the hierarchical backend and reopening via
`load` reads every stored field back exactly as written, and infers each
recording flag as true iff some stored entry for that quantity across the
trace is non-missing (the chi-square-sensitivity is never stored by
`_update_trace`, so its flag is always recovered as false). -/
theorem hdf5_load_round_trip :
    ∀ (o : HistoryOptions) (us : List Upd) (file : String),
      o.trace_record = true → Hdf5RoundTrip o us file := by
  intro o us file hrec
  obtain ⟨hst, hn, hsv⟩ := hdf5_run_store o hrec us (hdf5_fresh o)
  have hlen : (us.foldl (hdf5_update o) (hdf5_fresh o)).n_iterations =
      (us.foldl (hdf5_update o) (hdf5_fresh o)).store.length := by
    rw [hst, hn]
    simp [hdf5_fresh]
  have hmap : ∀ {α : Type} (sel : Hdf5Entry → Option α),
      hdf5_get_entries (us.foldl (hdf5_update o) (hdf5_fresh o)) sel =
        us.map (fun u => sel (hdf5_entry_of o u)) := by
    intro α sel
    rw [hdf5_get_entries_eq _ _ hlen, hst]
    simp [hdf5_fresh, List.map_map]
  have hchk : ∀ {α : Type} (sel : Hdf5Entry → Option α),
      hdf5_check_not_nan (us.foldl (hdf5_update o) (hdf5_fresh o)) sel = true ↔
        ∃ u ∈ us, (sel (hdf5_entry_of o u)).isSome = true := by
    intro α sel
    unfold hdf5_check_not_nan
    rw [hmap]
    simp [List.any_eq_true]
  refine ⟨hmap _, hmap _, hmap _, hmap _, hmap _, hmap _, hmap _, hmap _,
    ?_, ?_, ?_, ?_, ?_, ?_, ?_, ?_⟩
  · show hdf5_check_not_nan _ _ = true ↔ _
    rw [hchk]
    cases us <;> simp [hdf5_entry_of]
  · show hdf5_check_not_nan _ _ = true ↔ _
    rw [hchk]
    simp [hdf5_entry_of, Option.isSome_iff_ne_none]
  · show hdf5_check_not_nan _ _ = true ↔ _
    rw [hchk]
    simp [hdf5_entry_of, Option.isSome_iff_ne_none]
  · show hdf5_check_not_nan _ _ = true ↔ _
    rw [hchk]
    simp [hdf5_entry_of, Option.isSome_iff_ne_none]
  · show hdf5_check_not_nan _ _ = true ↔ _
    rw [hchk]
    simp [hdf5_entry_of, Option.isSome_iff_ne_none]
  · show hdf5_check_not_nan _ _ = true ↔ _
    rw [hchk]
    simp [hdf5_entry_of, Option.isSome_iff_ne_none]
  · show hdf5_check_not_nan _ _ = false
    unfold hdf5_check_not_nan
    rw [hmap]
    simp
  · show (us.foldl (hdf5_update o) (hdf5_fresh o)).trace_save_iter = _
    rw [hsv]
    rfl

/-- Witness for C7: one function-value update with tracing enabled satisfies
the full round-trip property. -/
theorem hdf5_load_round_trip_witness :
    Hdf5RoundTrip { trace_record := true }
      [{ x := [1], result := { fval := some 2 } }] "h.hdf5" :=
  hdf5_load_round_trip { trace_record := true }
    [{ x := [1], result := { fval := some 2 } }] "h.hdf5" rfl

/-- Index of the last occurrence of a character, `str.rfind` (modulo the `-1`
convention, which is handled at the call site). -/
def lastIdxOf (cs : List Char) (c : Char) : Option Nat :=
  ((cs.enum.filter (fun p => p.2 == c)).getLast?).map (fun p => p.1)

/-- `os.path.splitext(p)[1]` for POSIX paths: the extension starting at the
last dot, provided that dot lies after the last separator and the base name
has at least one non-dot character before it (leading dots never start an
extension). -/
def splitextExt (p : String) : String :=
  let cs := p.data
  match lastIdxOf cs '.' with
  | none => ""
  | some d =>
    let fstart : Nat :=
      match lastIdxOf cs '/' with
      | none => 0
      | some s => s + 1
    let sepOk : Bool :=
      match lastIdxOf cs '/' with
      | none => true
      | some s => decide (s < d)
    let hasName : Bool := ((cs.drop fstart).take (d - fstart)).any (fun ch => ch != '.')
    if sepOk && hasName then String.mk (cs.drop d) else ""

/-- Replace every (non-overlapping, left-to-right) occurrence of `pat` in
`cs`, fuelled by the input length; `pat` is nonempty in all uses. -/
def replaceFrom : Nat → List Char → List Char → List Char → List Char
  | 0, cs, _, _ => cs
  | _ + 1, [], _, _ => []
  | fuel + 1, c :: rest, pat, rep =>
    if pat ≠ [] ∧ (c :: rest).take pat.length = pat then
      rep ++ replaceFrom fuel ((c :: rest).drop pat.length) pat rep
    else
      c :: replaceFrom fuel rest pat rep

/-- `str.replace(pat, rep)` for a nonempty pattern. -/
def strReplace (s pat rep : String) : String :=
  String.mk (replaceFrom s.data.length s.data pat.data rep.data)

/-- The backend selected by `HistoryOptions.create_history`. -/
inductive Backend where
  | counterOnly : Backend
  | memory : Backend
  | csv : String → List String → Backend
  | hdf5 : String → String → Backend
deriving DecidableEq, Repr

/-- `HistoryOptions.create_history(id, x_names)`: with no storage file,
a counter-only `History` or a `MemoryHistory` depending on `trace_record`;
otherwise substitute `id` for the placeholder and dispatch on the
`os.path.splitext` suffix, raising `ValueError` for unsupported suffixes. -/
def create_history (o : HistoryOptions) (id : String) (x_names : List String) :
    Except String Backend :=
  match o.storage_file with
  | none => if o.trace_record then Except.ok Backend.memory else Except.ok Backend.counterOnly
  | some sf =>
    let storage_file := strReplace sf "\x7bid\x7d" id
    let ext := splitextExt storage_file
    if ext = ".csv" then Except.ok (Backend.csv storage_file x_names)
    else if ext = ".hdf5" then Except.ok (Backend.hdf5 id storage_file)
    else Except.error "Currently only history storage to .csv and .hdf5 is supported"

/-- C9: `create_history` returns the counter-only backend when no storage
target is set and tracing is disabled, the in-memory backend when tracing is
enabled, the flat-file backend when the substituted storage path has the
`.csv` suffix, the hierarchical backend for `.hdf5`, and fails with an
unsupported-format error for any other suffix. -/
theorem create_history_dispatch :
    ∀ (o : HistoryOptions) (id : String) (x_names : List String),
      (o.storage_file = none → o.trace_record = false →
        create_history o id x_names = Except.ok Backend.counterOnly) ∧
      (o.storage_file = none → o.trace_record = true →
        create_history o id x_names = Except.ok Backend.memory) ∧
      (∀ sf, o.storage_file = some sf →
        (splitextExt (strReplace sf "\x7bid\x7d" id) = ".csv" →
          create_history o id x_names =
            Except.ok (Backend.csv (strReplace sf "\x7bid\x7d" id) x_names)) ∧
        (splitextExt (strReplace sf "\x7bid\x7d" id) = ".hdf5" →
          create_history o id x_names =
            Except.ok (Backend.hdf5 id (strReplace sf "\x7bid\x7d" id))) ∧
        (splitextExt (strReplace sf "\x7bid\x7d" id) ≠ ".csv" →
          splitextExt (strReplace sf "\x7bid\x7d" id) ≠ ".hdf5" →
          ∃ msg, create_history o id x_names = Except.error msg)) := by
  intro o id xn
  refine ⟨?_, ?_, ?_⟩
  · intro h0 h1
    simp [create_history, h0, h1]
  · intro h0 h1
    simp [create_history, h0, h1]
  · intro sf hsf
    refine ⟨?_, ?_, ?_⟩
    · intro hext
      simp [create_history, hsf, hext]
    · intro hext
      have hne : splitextExt (strReplace sf "\x7bid\x7d" id) ≠ ".csv" := by
        rw [hext]
        decide
      simp [create_history, hsf, hext, hne]
    · intro h1 h2
      refine ⟨"Currently only history storage to .csv and .hdf5 is supported", ?_⟩
      simp [create_history, hsf, h1, h2]

/-- Witness for C9: concrete dispatch on each branch, including the `id`
placeholder substitution. -/
theorem create_history_dispatch_witness :
    create_history { trace_record := true, storage_file := some "hist_\x7bid\x7d.csv" }
        "a" ["p"] = Except.ok (Backend.csv "hist_a.csv" ["p"]) ∧
    create_history { storage_file := some "h.hdf5" } "a" [] =
      Except.ok (Backend.hdf5 "a" "h.hdf5") ∧
    create_history {} "a" [] = Except.ok Backend.counterOnly ∧
    create_history { trace_record := true } "a" [] = Except.ok Backend.memory ∧
    (∃ msg, create_history { storage_file := some "h.txt" } "a" [] =
      Except.error msg) := by
  refine ⟨?_, ?_, ?_, ?_, ?_⟩
  · exact ((create_history_dispatch
      { trace_record := true, storage_file := some "hist_\x7bid\x7d.csv" } "a"
      ["p"]).2.2 "hist_\x7bid\x7d.csv" rfl).1 (by decide)
  · exact ((create_history_dispatch { storage_file := some "h.hdf5" } "a"
      []).2.2 "h.hdf5" rfl).2.1 (by decide)
  · exact (create_history_dispatch {} "a" []).1 rfl rfl
  · exact (create_history_dispatch { trace_record := true } "a" []).2.1 rfl rfl
  · exact ((create_history_dispatch { storage_file := some "h.txt" } "a"
      []).2.2 "h.txt" rfl).2.2 (by decide) (by decide)

/-- One record of a reloaded trace, as seen through the `History` getters
used by `_compute_vals_from_trace` (`none` = `NaN` / missing). -/
structure TraceRecord where
  x : Option (List ℚ) := none
  fval : Option ℚ := none
  grad : Option (List ℚ) := none
  hess : Option (List (List ℚ)) := none
  res : Option (List ℚ) := none
  sres : Option (List (List ℚ)) := none
  chi2 : Option ℚ := none
deriving DecidableEq, Repr

/-- One step of `np.nanargmin` over a cons cell: a NaN head shifts the tail's
result; a non-NaN head wins unless the tail holds a strictly smaller value
(so the first occurrence wins on ties). -/
def nanStep (a : Option ℚ) (rest : Option (Nat × ℚ)) : Option (Nat × ℚ) :=
  match a, rest with
  | none, r => r.map (fun p => (p.1 + 1, p.2))
  | some v, none => some (0, v)
  | some v, some (j, w) => if w < v then some (j + 1, w) else some (0, v)

/-- `np.nanargmin`: index and value of the first smallest non-NaN entry;
`none` when every entry is NaN (the call raises in that case). -/
def nanArgMin : List (Option ℚ) → Option (Nat × ℚ)
  | [] => none
  | a :: t => nanStep a (nanArgMin t)

/-- The index returned by `np.nanargmin`, first occurrence on ties. -/
def nanargmin (l : List (Option ℚ)) : Option Nat :=
  (nanArgMin l).map (fun p => p.1)

/-- `np.allclose` between two possibly-NaN parameter vectors: false whenever
either is missing (NaN never compares close), equality otherwise. -/
def xallclose (a b : Option (List ℚ)) : Bool :=
  match a, b with
  | some u, some v => u == v
  | _, _ => false

/-- The "try the next index" extraction of `_compute_vals_from_trace`: keep
the value at the minimum index if set; otherwise, when the following index is
in range with a matching parameter vector (`tryNext`), take its value. -/
def second_try {α : Type} (primary secondary : Option α) (tryNext : Bool) : Option α :=
  match primary with
  | some v => some v
  | none => if tryNext then secondary else none

/-- The body of `_compute_vals_from_trace` once `np.nanargmin` has produced
the minimum index `ixm`: copy `fval`/`chi2`/`x` from `ixm` (`extract_from_history`
skips NaN values, leaving the attribute unset), copy `res` when its flag is
enabled, and extract `grad`/`sres`/`hess` (flag-gated) at `ixm` with a second
try at `ixm + 1` when still unset, in range, and at the same parameters. -/
def compute_vals_core (trace : List TraceRecord) (o : HistoryOptions)
    (x0 : List ℚ) (fval0 : Option ℚ) (ixm : Nat) : OptimizerHistoryState :=
  let r := (trace.get? ixm).getD {}
  let rnext := (trace.get? (ixm + 1)).getD {}
  let tryNext : Bool := decide (ixm + 1 < trace.length) && xallclose r.x rnext.x
  { x0 := x0
    fval0 := fval0
    fval_min := r.fval
    chi2_min := r.chi2
    x_min := r.x
    res_min := if o.trace_record_res then r.res else none
    grad_min := if o.trace_record_grad then second_try r.grad rnext.grad tryNext else none
    sres_min := if o.trace_record_sres then second_try r.sres rnext.sres tryNext else none
    hess_min := if o.trace_record_hess then second_try r.hess rnext.hess tryNext else none }

/-- `OptimizerHistory._compute_vals_from_trace`: search the first three
iterations for an initial value at `x0`, then reconstruct the best point from
the global minimum of the function-value trace; `none` models the exception
raised by `np.nanargmin` on an all-NaN trace. -/
def compute_vals_from_trace (trace : List TraceRecord) (o : HistoryOptions)
    (x0 : List ℚ) : Option OptimizerHistoryState :=
  let fval0 := (trace.take 3).findSome? (fun tr =>
    match tr.fval, tr.x with
    | some c, some xv => if xv = x0 then some c else none
    | _, _ => none)
  (nanargmin (trace.map (fun tr => tr.fval))).map (compute_vals_core trace o x0 fval0)

/-- `i` is the first index attaining the minimum over the non-NaN entries. -/
def IsFirstMinIdx (l : List (Option ℚ)) (i : Nat) : Prop :=
  ∃ v, l.get? i = some (some v) ∧
    (∀ j w, l.get? j = some (some w) → v ≤ w) ∧
    (∀ j, j < i → ∀ w, l.get? j = some (some w) → v < w)

theorem nanStep_none (r : Option (Nat × ℚ)) :
    nanStep none r = r.map (fun p => (p.1 + 1, p.2)) :=
  rfl

theorem nanStep_some_none (v : ℚ) : nanStep (some v) none = some (0, v) :=
  rfl

theorem nanStep_some_some (v : ℚ) (j : Nat) (w : ℚ) :
    nanStep (some v) (some (j, w)) =
      if w < v then some (j + 1, w) else some (0, v) :=
  rfl

theorem nanArgMin_cons (a : Option ℚ) (t : List (Option ℚ)) :
    nanArgMin (a :: t) = nanStep a (nanArgMin t) :=
  rfl

theorem nanArgMin_none :
    ∀ (l : List (Option ℚ)), nanArgMin l = none →
      ∀ j w, l.get? j = some (some w) → False := by
  intro l
  induction l with
  | nil =>
    intro _ j w hj
    simp at hj
  | cons a t ih =>
    intro h j w hj
    rw [nanArgMin_cons] at h
    cases a with
    | none =>
      rw [nanStep_none] at h
      have ht : nanArgMin t = none := by
        rcases hm : nanArgMin t with _ | p
        · rfl
        · rw [hm] at h
          simp at h
      cases j with
      | zero => simp at hj
      | succ j2 => exact ih ht j2 w hj
    | some v =>
      rcases hm : nanArgMin t with _ | ⟨j2, w2⟩
      · rw [hm, nanStep_some_none] at h
        simp at h
      · rw [hm, nanStep_some_some] at h
        by_cases hc : w2 < v
        · rw [if_pos hc] at h
          simp at h
        · rw [if_neg hc] at h
          simp at h

theorem nanArgMin_spec :
    ∀ (l : List (Option ℚ)) (i : Nat) (v : ℚ),
      nanArgMin l = some (i, v) →
      l.get? i = some (some v) ∧
      (∀ j w, l.get? j = some (some w) → v ≤ w) ∧
      (∀ j, j < i → ∀ w, l.get? j = some (some w) → v < w) := by
  intro l
  induction l with
  | nil =>
    intro i v h
    simp [nanArgMin] at h
  | cons a t ih =>
    intro i v h
    rw [nanArgMin_cons] at h
    cases a with
    | none =>
      rcases hm : nanArgMin t with _ | ⟨j2, w2⟩
      · rw [hm, nanStep_none] at h
        simp at h
      · rw [hm, nanStep_none] at h
        simp at h
        obtain ⟨hi, hv⟩ := h
        obtain ⟨h1, h2, h3⟩ := ih j2 w2 hm
        subst hi hv
        refine ⟨h1, ?_, ?_⟩
        · intro j w hj
          cases j with
          | zero => simp at hj
          | succ j3 => exact h2 j3 w hj
        · intro j hlt w hj
          cases j with
          | zero => simp at hj
          | succ j3 => exact h3 j3 (by omega) w hj
    | some a =>
      rcases hm : nanArgMin t with _ | ⟨j2, w2⟩
      · rw [hm, nanStep_some_none] at h
        simp at h
        obtain ⟨hi, hv⟩ := h
        subst hi
        subst hv
        refine ⟨by simp, ?_, ?_⟩
        · intro j w hj
          cases j with
          | zero =>
            simp at hj
            subst hj
            exact le_rfl
          | succ j3 => exact absurd hj (fun hc => nanArgMin_none t hm j3 w hc)
        · intro j hlt w hj
          omega
      · rw [hm, nanStep_some_some] at h
        obtain ⟨h1, h2, h3⟩ := ih j2 w2 hm
        by_cases hav : w2 < a
        · rw [if_pos hav] at h
          simp at h
          obtain ⟨hi, hv⟩ := h
          subst hi
          subst hv
          refine ⟨h1, ?_, ?_⟩
          · intro j w hj
            cases j with
            | zero =>
              simp at hj
              subst hj
              exact le_of_lt hav
            | succ j3 => exact h2 j3 w hj
          · intro j hlt w hj
            cases j with
            | zero =>
              simp at hj
              subst hj
              exact hav
            | succ j3 => exact h3 j3 (by omega) w hj
        · rw [if_neg hav] at h
          simp at h
          obtain ⟨hi, hv⟩ := h
          subst hi
          subst hv
          refine ⟨by simp, ?_, ?_⟩
          · intro j w hj
            cases j with
            | zero =>
              simp at hj
              subst hj
              exact le_rfl
            | succ j3 => exact le_trans (not_lt.mp hav) (h2 j3 w hj)
          · intro j hlt w hj
            omega

/-- The summary reconstructed from `sampleTrace` (see below). -/
def sampleReconstructed : OptimizerHistoryState :=
  { x0 := [0, 0], fval0 := some 10, fval_min := some 3, chi2_min := none,
    x_min := some [1, 1], grad_min := some [2, 3], hess_min := none,
    res_min := none, sres_min := none }

/-- A reloaded trace whose minimum function value sits at index 2 while the
matching gradient appears only at index 3 with an identical parameter
vector. -/
def sampleTrace : List TraceRecord :=
  [{ x := some [0, 0], fval := some 10 },
   { x := some [1, 1], fval := some 7 },
   { x := some [1, 1], fval := some 3 },
   { x := some [1, 1], fval := some 5, grad := some [2, 3] }]

/-- C6: reconstructing an `OptimizerHistory` from a reloaded trace picks the
first index attaining the minimum of the function-value trace, copies
`fval`/`chi2`/`x` from that index, copies `res` when its flag is enabled, and
extracts each of `grad`/`sres`/`hess` (when its flag is enabled) at the
minimum index with a second try at the immediately following index provided
it is in range and its parameter vector matches; in particular, on
`sampleTrace` the reconstructed `grad_min` is index 3's gradient `[2, 3]`. -/
theorem compute_vals_from_trace_spec :
    (∀ (trace : List TraceRecord) (o : HistoryOptions) (x0 : List ℚ),
      (trace.map (fun tr => tr.fval)).any (fun e => e.isSome) = true →
      ∃ ixm, nanargmin (trace.map (fun tr => tr.fval)) = some ixm ∧
        IsFirstMinIdx (trace.map (fun tr => tr.fval)) ixm ∧
        ∃ s, compute_vals_from_trace trace o x0 = some s ∧
          s.fval_min = ((trace.get? ixm).getD {}).fval ∧
          s.chi2_min = ((trace.get? ixm).getD {}).chi2 ∧
          s.x_min = ((trace.get? ixm).getD {}).x ∧
          (o.trace_record_res = true → s.res_min = ((trace.get? ixm).getD {}).res) ∧
          (o.trace_record_res = false → s.res_min = none) ∧
          (o.trace_record_grad = true → s.grad_min =
            second_try ((trace.get? ixm).getD {}).grad
              ((trace.get? (ixm + 1)).getD {}).grad
              (decide (ixm + 1 < trace.length) &&
                xallclose ((trace.get? ixm).getD {}).x
                  ((trace.get? (ixm + 1)).getD {}).x)) ∧
          (o.trace_record_grad = false → s.grad_min = none) ∧
          (o.trace_record_sres = true → s.sres_min =
            second_try ((trace.get? ixm).getD {}).sres
              ((trace.get? (ixm + 1)).getD {}).sres
              (decide (ixm + 1 < trace.length) &&
                xallclose ((trace.get? ixm).getD {}).x
                  ((trace.get? (ixm + 1)).getD {}).x)) ∧
          (o.trace_record_sres = false → s.sres_min = none) ∧
          (o.trace_record_hess = true → s.hess_min =
            second_try ((trace.get? ixm).getD {}).hess
              ((trace.get? (ixm + 1)).getD {}).hess
              (decide (ixm + 1 < trace.length) &&
                xallclose ((trace.get? ixm).getD {}).x
                  ((trace.get? (ixm + 1)).getD {}).x)) ∧
          (o.trace_record_hess = false → s.hess_min = none)) ∧
    (∃ s, compute_vals_from_trace sampleTrace {} [0, 0] = some s ∧
      s.fval0 = some 10 ∧ s.fval_min = some 3 ∧ s.x_min = some [1, 1] ∧
      s.grad_min = some [2, 3]) := by
  constructor
  · intro trace o x0 hany
    rcases hn : nanArgMin (trace.map (fun tr => tr.fval)) with _ | ⟨i, v⟩
    · exfalso
      rw [List.any_eq_true] at hany
      obtain ⟨oq, hmem, hq⟩ := hany
      obtain ⟨w, hw⟩ := Option.isSome_iff_exists.mp hq
      obtain ⟨j, hj⟩ := List.mem_iff_get?.mp hmem
      exact nanArgMin_none _ hn j w (by rw [hj, hw])
    · obtain ⟨h1, h2, h3⟩ := nanArgMin_spec _ i v hn
      refine ⟨i, by simp [nanargmin, hn], ⟨v, h1, h2, h3⟩, ?_⟩
      refine ⟨compute_vals_core trace o x0
        ((trace.take 3).findSome? (fun tr =>
          match tr.fval, tr.x with
          | some c, some xv => if xv = x0 then some c else none
          | _, _ => none)) i,
        ?_, rfl, rfl, rfl, ?_, ?_, ?_, ?_, ?_, ?_, ?_, ?_⟩
      · unfold compute_vals_from_trace nanargmin
        rw [hn]
        rfl
      · intro hflag
        simp [compute_vals_core, hflag]
      · intro hflag
        simp [compute_vals_core, hflag]
      · intro hflag
        simp [compute_vals_core, hflag]
      · intro hflag
        simp [compute_vals_core, hflag]
      · intro hflag
        simp [compute_vals_core, hflag]
      · intro hflag
        simp [compute_vals_core, hflag]
      · intro hflag
        simp [compute_vals_core, hflag]
      · intro hflag
        simp [compute_vals_core, hflag]
  · exact ⟨sampleReconstructed, by with_unfolding_all decide, rfl, rfl, rfl, rfl⟩

/-- Witness for C6's general part, applied to `sampleTrace`: the minimum
index exists and is the first index attaining the minimum. -/
theorem compute_vals_from_trace_spec_witness :
    ∃ ixm, nanargmin (sampleTrace.map (fun tr => tr.fval)) = some ixm ∧
      IsFirstMinIdx (sampleTrace.map (fun tr => tr.fval)) ixm := by
  obtain ⟨ixm, hn, hfirst, _⟩ :=
    compute_vals_from_trace_spec.1 sampleTrace {} [0, 0] (by decide)
  exact ⟨ixm, hn, hfirst⟩

end PyPesto
